import Mathlib

/-
Verification of the RTIC example repository (examples/local.rs and
examples/t-idle-main.rs) against its natural-language specification.

The repository ships only the two example applications; the RTIC framework
itself (declaration analyzer, ceiling computer, dispatch planner, runtime)
is an external crate. Definitions below that embed the framework are
therefore modelled from the spec (marked in their doc comments), while the
example task bodies, resource declarations and init bodies are embedded
directly from the Rust source.
-/

namespace RTIC

/-- Wrapping 32-bit addition: Rust `u32` arithmetic (`*shared += 1`). -/
def u32add (a b : Nat) : Nat := (a + b) % 4294967296

/-- Access modifier of a resource declaration: `#[task_local]`,
`#[lock_free]`, or neither (default, shared). -/
inductive AccessMode
  | sharedMode
  | lockFree
  | taskLocal
deriving DecidableEq, Repr

/-- Modelled from the spec: the structured error kinds of the compile-time
analysis and the runtime `pend` primitive (spec section 7). -/
inductive ErrKind
  | Malformed
  | AccessViolation
  | LateInitIncomplete
  | QueueFull
  | InsufficientVectors
deriving DecidableEq, Repr

/-- Modelled from the spec: the per-resource access mode emitted by the
Access Analyzer (spec section 4.2). -/
inductive Access
  | Owned
  | LockFree
  | Shared (ceiling : Nat)
deriving DecidableEq, Repr

/-- A task as seen by the analyzer: name, static priority, and the names of
the resources it references. -/
structure RTask (α : Type) where
  name : String
  priority : Nat
  refs : List α
deriving DecidableEq, Repr

/-- A resource declaration as seen by the analyzer. -/
structure RRes (α : Type) where
  name : α
  mode : AccessMode
deriving DecidableEq, Repr

/-- The tasks of an application that reference a given resource. -/
def referencing {α : Type} [DecidableEq α] (tasks : List (RTask α)) (r : RRes α) :
    List (RTask α) :=
  tasks.filter (fun t => decide (r.name ∈ t.refs))

/-- Whether a list of priorities is a single priority level (empty, or all
equal to the first). -/
def samePrioLevel : List Nat → Bool
  | [] => true
  | p :: ps => ps.all (fun q => q == p)

/-- Modelled from the spec: the Access Analyzer (spec section 4.2), absent
from this repository (only the examples are shipped). `task_local` requires
exactly one referencing task; `lock_free` requires all referencing tasks to
share one priority level; `shared` gets a ceiling equal to the maximum
referencing priority. -/
def analyzeResource {α : Type} [DecidableEq α] (tasks : List (RTask α)) (r : RRes α) :
    Except ErrKind Access :=
  let refs := referencing tasks r
  match r.mode with
  | .taskLocal =>
      if refs.length = 1 then .ok .Owned else .error .AccessViolation
  | .lockFree =>
      if samePrioLevel (refs.map (fun t => t.priority)) then .ok .LockFree
      else .error .AccessViolation
  | .sharedMode =>
      .ok (.Shared ((refs.map (fun t => t.priority)).foldr Nat.max 0))

/-- The resource names declared in examples/local.rs. -/
inductive ResName
  | shared
  | l1
  | e1
  | l2
  | e2
deriving DecidableEq, Repr

/-- Access modifiers of the resources of examples/local.rs, from the
attributes on the `Resources` struct (lines 14-36 of the source). -/
def localMode : ResName → AccessMode
  | .shared => .sharedMode
  | .l1 => .taskLocal
  | .e1 => .lockFree
  | .l2 => .taskLocal
  | .e2 => .lockFree

def resNameStr : ResName → String
  | .shared => "shared"
  | .l1 => "l1"
  | .e1 => "e1"
  | .l2 => "l2"
  | .e2 => "e2"

/-- The resource declarations of examples/local.rs as analyzer input. -/
def localRRes (r : ResName) : RRes String :=
  { name := resNameStr r, mode := localMode r }

/-- The task list of examples/local.rs as analyzer input: `idle` at
priority 0 with `resources = [l1, e2]`, `uart0` at priority 1 with
`resources = [shared, l2, e1]`, `uart1` at priority 1 with
`resources = [shared, e1]`. -/
def localRTasks : List (RTask String) :=
  [ { name := "idle", priority := 0, refs := ["l1", "e2"] },
    { name := "uart0", priority := 1, refs := ["shared", "l2", "e1"] },
    { name := "uart1", priority := 1, refs := ["shared", "e1"] } ]

/-- The resource store of examples/local.rs: all five `u32` resources.
Late resources (`l2`, `e2`) hold a placeholder before `init` stores them. -/
structure ResStore where
  shared : Nat
  l1 : Nat
  e1 : Nat
  l2 : Nat
  e2 : Nat
deriving DecidableEq, Repr

def getRes (s : ResStore) : ResName → Nat
  | .shared => s.shared
  | .l1 => s.l1
  | .e1 => s.e1
  | .l2 => s.l2
  | .e2 => s.e2

def setRes (s : ResStore) : ResName → Nat → ResStore
  | .shared, v => { s with shared := v }
  | .l1, v => { s with l1 := v }
  | .e1, v => { s with e1 := v }
  | .l2, v => { s with l2 := v }
  | .e2, v => { s with e2 := v }

/-- Observable events of a run: BASEPRI writes, NVIC pends, task entries,
semihosting `hprintln!` lines (format-string prefix plus printed value),
and `debug::exit`. -/
inductive Event
  | basepriSet (v : Nat)
  | pendEv (vector : Nat)
  | taskRun (name : String)
  | line (tag : String) (val : Nat)
  | exitCode (success : Bool)
deriving DecidableEq, Repr

/-- Statements of the example task bodies: `*r += n` on a resource taken
as `&mut` from the Context, `hprintln!(tag, r)`, entry/exit of a `lock`
critical section (unused by these examples), and `debug::exit(SUCCESS)`. -/
inductive Op
  | addRes (r : ResName) (n : Nat)
  | printRes (tag : String) (r : ResName)
  | lockStart (r : ResName)
  | lockEnd
  | exitSuccess
deriving DecidableEq, Repr

def interpOp (s : ResStore) : Op → ResStore × List Event
  | .addRes r n => (setRes s r (u32add (getRes s r) n), [])
  | .printRes tag r => (s, [.line tag (getRes s r)])
  | .lockStart _ => (s, [])
  | .lockEnd => (s, [])
  | .exitSuccess => (s, [.exitCode true])

/-- Run a task body: thread the resource store through its statements,
collecting the emitted events in order. -/
def interp (ops : List Op) (s : ResStore) : ResStore × List Event :=
  ops.foldl (fun acc op =>
    let r := interpOp acc.1 op
    (r.1, acc.2 ++ r.2)) (s, [])

/-- Body of `uart0` from examples/local.rs lines 60-67: `*shared += 1`,
`*e1 += 10`, then print shared, l2, e1. -/
def uart0 : List Op :=
  [ .addRes .shared 1,
    .addRes .e1 10,
    .printRes "UART0: shared = " .shared,
    .printRes "UART0:l2 = " .l2,
    .printRes "UART0:e1 = " .e1 ]

/-- Body of `uart1` from examples/local.rs lines 72-78: `*shared += 1`,
then print shared and e1. -/
def uart1 : List Op :=
  [ .addRes .shared 1,
    .printRes "UART1: shared = " .shared,
    .printRes "UART1:e1 = " .e1 ]

/-- Body of `idle` from examples/local.rs lines 49-54: print l1 and e2,
then `debug::exit(EXIT_SUCCESS)` (the trailing `loop {}` is unreachable
after the successful exit). -/
def localIdle : List Op :=
  [ .printRes "IDLE:l1 = " .l1,
    .printRes "IDLE:e2 = " .e2,
    .exitSuccess ]

/-- A hardware task of the dispatch plan: bound vector number, static
priority, and its body. -/
structure HwTask where
  name : String
  vector : Nat
  priority : Nat
  ops : List Op
deriving DecidableEq, Repr

def uart0Task : HwTask := { name := "uart0", vector := 5, priority := 1, ops := uart0 }

def uart1Task : HwTask := { name := "uart1", vector := 6, priority := 1, ops := uart1 }

/-- An application for the runtime model: initial (early) resource values,
the vectors `init` pends in order, the late-resource assignments `init`
returns, the bound hardware tasks, and the idle body. -/
structure App where
  init0 : ResStore
  initPends : List Nat
  lateAssigns : List (ResName × Nat)
  tasks : List HwTask
  idleOps : List Op

/-- Number of NVIC priority levels minus one: LM3S6965 has 3 priority
bits, so P = 2^3 - 1 = 7. -/
def P : Nat := 7

/-- Modelled from the spec: NVIC dispatch order among pended vectors
(spec sections 4.4-4.5; the runtime is not in this repository). Higher
priority first; ties broken by lower exception (vector) number, as the
NVIC does. -/
def insertByPrio (t : HwTask) : List HwTask → List HwTask
  | [] => [t]
  | u :: us =>
      if u.priority < t.priority ∨ (t.priority = u.priority ∧ t.vector < u.vector) then
        t :: u :: us
      else
        u :: insertByPrio t us

def sortTasks (ts : List HwTask) : List HwTask := ts.foldr insertByPrio []

def pendedTasks (app : App) : List HwTask :=
  app.tasks.filter (fun t => decide (t.vector ∈ app.initPends))

/-- Modelled from the spec: the boot sequence of the Runtime (spec section
4.5), absent from this repository. BASEPRI is raised above `P` so the
pends issued by `init` are not dispatched during `init`; `init` returns
late-resource values which are stored; BASEPRI is lowered to 0; the
pended tasks are dispatched in NVIC priority order; control then falls
into idle. -/
def runApp (app : App) : ResStore × List Event :=
  let s1 := app.lateAssigns.foldl (fun s a => setRes s a.1 a.2) app.init0
  let dispatched := (sortTasks (pendedTasks app)).foldl (fun acc t =>
      let r := interp t.ops acc.1
      (r.1, acc.2 ++ Event.taskRun t.name :: r.2)) (s1, ([] : List Event))
  let idl := interp app.idleOps dispatched.1
  (idl.1,
    Event.basepriSet (P + 1) ::
      (app.initPends.map Event.pendEv ++ Event.basepriSet 0 :: (dispatched.2 ++ idl.2)))

/-- examples/local.rs as a runtime application: early values
`shared = 0`, `l1 = 1`, `e1 = 1`; `init` pends UART0 (vector 5) then
UART1 (vector 6) and returns `LateResources { e2: 2, l2: 2 }`. -/
def localApp : App :=
  { init0 := { shared := 0, l1 := 1, e1 := 1, l2 := 0, e2 := 0 },
    initPends := [5, 6],
    lateAssigns := [(.e2, 2), (.l2, 2)],
    tasks := [uart0Task, uart1Task],
    idleOps := localIdle }

/-- examples/t-idle-main.rs as a runtime application: no resources, empty
`init`, and an idle task `taskmain` that calls
`debug::exit(EXIT_SUCCESS)` (its trailing `loop { nop }` is unreachable
after the successful exit). -/
def tIdleApp : App :=
  { init0 := { shared := 0, l1 := 0, e1 := 0, l2 := 0, e2 := 0 },
    initPends := [],
    lateAssigns := [],
    tasks := [],
    idleOps := [.exitSuccess] }

/-- The resource a statement writes (takes `&mut` and mutates), if any. -/
def opWrites : Op → Option ResName
  | .addRes r _ => some r
  | _ => none

/-- The resources a statement reads: `*r += n` reads `r` before writing
it; `hprintln!` reads the printed resource. -/
def opReads : Op → List ResName
  | .addRes r _ => [r]
  | .printRes _ r => [r]
  | _ => []

/-- Whether a body mutates resource `r` outside any `lock` critical
section, tracked by lock-nesting depth. -/
def writesOutsideLock (ops : List Op) (r : ResName) : Bool :=
  (ops.foldl (fun (acc : Nat × Bool) op =>
    match op with
    | .lockStart _ => (acc.1 + 1, acc.2)
    | .lockEnd => (acc.1 - 1, acc.2)
    | .addRes r2 _ => (acc.1, acc.2 || (acc.1 == 0 && decide (r2 = r)))
    | _ => acc) (0, false)).2

/-- How a task is triggered: bound to a hardware vector, or a software
task served by the dispatcher queue at a given index. -/
inductive Trigger
  | hw (vector : Nat)
  | sw (queueIdx : Nat)
deriving DecidableEq, Repr

/-- A schedulable task for the `pend` model. -/
structure STask where
  id : Nat
  trigger : Trigger
deriving DecidableEq, Repr

/-- A dispatcher's ready queue: declared capacity and current FIFO
contents (task identifiers). -/
structure SwQueue where
  cap : Nat
  items : List Nat
deriving DecidableEq, Repr

/-- NVIC/scheduler state for the `pend` model: the set of pended hardware
vectors (one pending bit each) and the software dispatchers' queues. -/
structure PendState where
  pendingHw : List Nat
  queues : List SwQueue
deriving DecidableEq, Repr

/-- Setting a hardware vector's NVIC pending bit: a second pend of an
already-pending vector is coalesced (the bit is already set). -/
def pendHwBit (l : List Nat) (v : Nat) : List Nat :=
  if v ∈ l then l else l ++ [v]

/-- Modelled from the spec: the `pend` primitive (spec sections 4.4 and
5), absent from this repository. A hardware task's vector gets its
pending bit set (coalescing, infallible); a software task is enqueued
into its dispatcher's FIFO, failing with `QueueFull` when the queue is at
declared capacity. -/
def pend (s : PendState) (t : STask) : Except ErrKind PendState :=
  match t.trigger with
  | .hw v => .ok { s with pendingHw := pendHwBit s.pendingHw v }
  | .sw i =>
      match s.queues[i]? with
      | none => .error .Malformed
      | some q =>
          if q.cap ≤ q.items.length then .error .QueueFull
          else .ok { s with queues := s.queues.set i { q with items := q.items ++ [t.id] } }

/-- Runtime state seen by the `lock` primitive: the BASEPRI register and
the rest of the state (resources), abstracted. -/
structure LockState (σ : Type) where
  basepri : Nat
  data : σ

/-- Modelled from the spec: the `lock` primitive (spec section 4.5),
absent from this repository. Reads current BASEPRI, raises it to the
ceiling when the ceiling is higher, runs the thunk, then restores the
prior BASEPRI. Total, hence infallible. -/
def lock {σ : Type} (ceiling : Nat) (f : LockState σ → LockState σ)
    (s : LockState σ) : LockState σ :=
  let prior := s.basepri
  let raised := if prior < ceiling then ceiling else prior
  let s2 := f { s with basepri := raised }
  { s2 with basepri := prior }

/-- Control-flow skeleton of an `init` body for the late-initialization
check: an exit returning a `LateResources` record assigning the listed
resources, or a two-way branch. -/
inductive InitBody
  | ret (assigned : List String)
  | branch (thn els : InitBody)
deriving DecidableEq, Repr

/-- The assignment sets of all control-flow exit paths of an init body. -/
def exits : InitBody → List (List String)
  | .ret a => [a]
  | .branch t e => exits t ++ exits e

/-- Modelled from the spec: the late-initialization check (spec sections
3 and 7), absent from this repository. Every late resource must be
assigned on every control-flow exit path of `init`; otherwise the
application is rejected with `LateInitIncomplete`. -/
def checkLate (lates : List String) (b : InitBody) : Except ErrKind Unit :=
  if (exits b).all (fun a => lates.all (fun l => decide (l ∈ a))) then .ok ()
  else .error .LateInitIncomplete

/-- The single exit of examples/local.rs `init` (line 42): it returns
`init::LateResources { e2: 2, l2: 2 }`, assigning both late resources. -/
def localInitBody : InitBody := .ret ["e2", "l2"]

deriving instance DecidableEq for Except

theorem le_foldr_max (l : List Nat) (a : Nat) (h : a ∈ l) : a ≤ l.foldr Nat.max 0 := by
  induction l with
  | nil => cases h
  | cons b bs ih =>
      rcases List.mem_cons.mp h with rfl | h2
      · exact Nat.le_max_left _ _
      · exact le_trans (ih h2) (Nat.le_max_right _ _)

theorem foldr_max_mem (l : List Nat) (h : l ≠ []) : l.foldr Nat.max 0 ∈ l := by
  induction l with
  | nil => contradiction
  | cons b bs ih =>
      cases bs with
      | nil => simp
      | cons c cs =>
          have hm := ih (by simp)
          rcases Nat.le_total b ((c :: cs).foldr Nat.max 0) with h1 | h1
          · have he : Nat.max b ((c :: cs).foldr Nat.max 0) = (c :: cs).foldr Nat.max 0 :=
              Nat.max_eq_right h1
            rw [show (b :: c :: cs).foldr Nat.max 0 = Nat.max b ((c :: cs).foldr Nat.max 0) from rfl,
              he]
            exact List.mem_cons_of_mem _ hm
          · have he : Nat.max b ((c :: cs).foldr Nat.max 0) = b := Nat.max_eq_left h1
            rw [show (b :: c :: cs).foldr Nat.max 0 = Nat.max b ((c :: cs).foldr Nat.max 0) from rfl,
              he]
            exact List.mem_cons_self _ _

/-- C1: for the local.rs application the full observable trace of the modelled
run is: BASEPRI raised above P, init pends UART0 then UART1 (not dispatched
during init), BASEPRI lowered to 0, then uart0 runs to completion printing
shared = 1, l2 = 2, e1 = 11, then uart1 runs to completion printing
shared = 2, e1 = 11, then idle prints l1 = 1, e2 = 2 and exits successfully. -/
theorem local_output_sequence :
    (runApp localApp).2 =
      [ .basepriSet 8, .pendEv 5, .pendEv 6, .basepriSet 0,
        .taskRun "uart0",
        .line "UART0: shared = " 1,
        .line "UART0:l2 = " 2,
        .line "UART0:e1 = " 11,
        .taskRun "uart1",
        .line "UART1: shared = " 2,
        .line "UART1:e1 = " 11,
        .line "IDLE:l1 = " 1,
        .line "IDLE:e2 = " 2,
        .exitCode true ] := by
  rfl

/-- C2: whenever the analyzer emits `Shared(c)` for a resource, `c` is the
maximum of the priorities of the tasks referencing that resource: an upper
bound on them, attained by some referencing task when any exists. -/
theorem shared_ceiling_is_max_ref_priority {α : Type} [DecidableEq α]
    (tasks : List (RTask α)) (r : RRes α) (c : Nat)
    (h : analyzeResource tasks r = .ok (.Shared c)) :
    (∀ t ∈ referencing tasks r, t.priority ≤ c) ∧
    (referencing tasks r ≠ [] → ∃ t ∈ referencing tasks r, t.priority = c) := by
  rcases r with ⟨name, mode⟩
  cases mode with
  | taskLocal =>
      simp only [analyzeResource] at h
      split at h <;> simp at h
  | lockFree =>
      simp only [analyzeResource] at h
      split at h <;> simp at h
  | sharedMode =>
      simp only [analyzeResource, Except.ok.injEq, Access.Shared.injEq] at h
      subst h
      constructor
      · intro t ht
        exact le_foldr_max _ _ (List.mem_map_of_mem _ ht)
      · intro hne
        have hmap : (referencing tasks ⟨name, .sharedMode⟩).map (fun t => t.priority) ≠ [] := by
          simpa using hne
        have hmem := foldr_max_mem _ hmap
        rcases List.mem_map.mp hmem with ⟨t, ht, hp⟩
        exact ⟨t, ht, hp⟩

/-- C2 witness: in local.rs the resource `shared` is referenced by uart0 and
uart1 (both priority 1); the analyzer emits `Shared 1`, and 1 is the maximum
referencing priority. -/
theorem shared_ceiling_is_max_ref_priority_witness :
    (∀ t ∈ referencing localRTasks (localRRes .shared), t.priority ≤ 1) ∧
    (referencing localRTasks (localRRes .shared) ≠ [] →
      ∃ t ∈ referencing localRTasks (localRRes .shared), t.priority = 1) :=
  shared_ceiling_is_max_ref_priority localRTasks (localRRes .shared) 1 (by decide)

theorem samePrioLevel_iff (l : List Nat) :
    samePrioLevel l = true ↔ ∀ q1 ∈ l, ∀ q2 ∈ l, q1 = q2 := by
  cases l with
  | nil => simp [samePrioLevel]
  | cons p ps =>
      constructor
      · intro h q1 hq1 q2 hq2
        have hp : ∀ q ∈ ps, q = p := by
          simpa [samePrioLevel, List.all_eq_true] using h
        have e1 : q1 = p := by
          rcases List.mem_cons.mp hq1 with h1 | h1
          · exact h1
          · exact hp _ h1
        have e2 : q2 = p := by
          rcases List.mem_cons.mp hq2 with h1 | h1
          · exact h1
          · exact hp _ h1
        rw [e1, e2]
      · intro h
        have hp : ∀ q ∈ ps, q = p := fun q hq =>
          h q (List.mem_cons_of_mem _ hq) p (List.mem_cons_self _ _)
        simpa [samePrioLevel, List.all_eq_true] using hp

/-- C4: the analyzer accepts a `lock_free` resource exactly when all of its
referencing tasks share one priority level, and rejects it with
`AccessViolation` otherwise. -/
theorem lockfree_accepted_iff_one_priority_level {α : Type} [DecidableEq α]
    (tasks : List (RTask α)) (r : RRes α) (h : r.mode = .lockFree) :
    (analyzeResource tasks r = .ok .LockFree ↔
      ∀ t1 ∈ referencing tasks r, ∀ t2 ∈ referencing tasks r,
        t1.priority = t2.priority) ∧
    (analyzeResource tasks r ≠ .ok .LockFree →
      analyzeResource tasks r = .error .AccessViolation) := by
  rcases r with ⟨name, mode⟩
  cases h
  simp only [analyzeResource]
  by_cases hs :
      samePrioLevel ((referencing tasks ⟨name, .lockFree⟩).map (fun t => t.priority)) = true
  · rw [if_pos hs]
    have hp := (samePrioLevel_iff _).mp hs
    constructor
    · constructor
      · intro _ t1 ht1 t2 ht2
        exact hp _ (List.mem_map_of_mem _ ht1) _ (List.mem_map_of_mem _ ht2)
      · intro _
        rfl
    · intro hne
      exact absurd rfl hne
  · rw [if_neg hs]
    constructor
    · constructor
      · intro hok
        exact Except.noConfusion hok
      · intro hsame
        refine absurd ((samePrioLevel_iff _).mpr ?_) hs
        intro q1 hq1 q2 hq2
        rcases List.mem_map.mp hq1 with ⟨t1, ht1, rfl⟩
        rcases List.mem_map.mp hq2 with ⟨t2, ht2, rfl⟩
        exact hsame t1 ht1 t2 ht2
    · intro _
      rfl

/-- C4 witness: local.rs's `e1` (lock_free, referenced by uart0 and uart1,
both priority 1) is accepted as `LockFree`, while a lock_free resource
shared by a priority-1 and a priority-2 task is rejected with
`AccessViolation`. -/
theorem lockfree_accepted_iff_one_priority_level_witness :
    analyzeResource localRTasks (localRRes .e1) = .ok .LockFree ∧
    analyzeResource
      [ ({ name := "a", priority := 1, refs := ["r"] } : RTask String),
        { name := "b", priority := 2, refs := ["r"] } ]
      ({ name := "r", mode := .lockFree } : RRes String) = .error .AccessViolation :=
  ⟨(lockfree_accepted_iff_one_priority_level localRTasks (localRRes .e1) rfl).1.mpr
      (by decide),
   (lockfree_accepted_iff_one_priority_level _ _ rfl).2 (by decide)⟩

/-- C5: the analyzer accepts a `task_local` resource exactly when it is
referenced by exactly one task (emitting `Owned`), and rejects it with
`AccessViolation` otherwise. -/
theorem tasklocal_accepted_iff_unique_owner {α : Type} [DecidableEq α]
    (tasks : List (RTask α)) (r : RRes α) (h : r.mode = .taskLocal) :
    (analyzeResource tasks r = .ok .Owned ↔ (referencing tasks r).length = 1) ∧
    (analyzeResource tasks r ≠ .ok .Owned →
      analyzeResource tasks r = .error .AccessViolation) := by
  rcases r with ⟨name, mode⟩
  cases h
  simp only [analyzeResource]
  by_cases hlen : (referencing tasks ⟨name, .taskLocal⟩).length = 1
  · rw [if_pos hlen]
    exact ⟨⟨fun _ => hlen, fun _ => rfl⟩, fun hne => absurd rfl hne⟩
  · rw [if_neg hlen]
    exact ⟨⟨fun hok => Except.noConfusion hok, fun h1 => absurd h1 hlen⟩, fun _ => rfl⟩

/-- C5 witness: local.rs's `l1` (task_local, referenced only by idle) is
accepted as `Owned`, while a task_local resource referenced by two distinct
tasks is rejected with `AccessViolation`. -/
theorem tasklocal_accepted_iff_unique_owner_witness :
    analyzeResource localRTasks (localRRes .l1) = .ok .Owned ∧
    analyzeResource
      [ ({ name := "a", priority := 1, refs := ["r"] } : RTask String),
        { name := "b", priority := 2, refs := ["r"] } ]
      ({ name := "r", mode := .taskLocal } : RRes String) = .error .AccessViolation :=
  ⟨(tasklocal_accepted_iff_unique_owner localRTasks (localRRes .l1) rfl).1.mpr
      (by decide),
   (tasklocal_accepted_iff_unique_owner _ _ rfl).2 (by decide)⟩

/-- C6: the late-initialization check accepts exactly when every late
resource is assigned on every control-flow exit path of `init`, and rejects
with `LateInitIncomplete` otherwise. -/
theorem late_init_assigned_on_every_exit (lates : List String) (b : InitBody) :
    (checkLate lates b = .ok () ↔ ∀ a ∈ exits b, ∀ l ∈ lates, l ∈ a) ∧
    (checkLate lates b ≠ .ok () → checkLate lates b = .error .LateInitIncomplete) := by
  simp only [checkLate]
  by_cases hc : ((exits b).all (fun a => lates.all (fun l => decide (l ∈ a)))) = true
  · rw [if_pos hc]
    simp only [List.all_eq_true, decide_eq_true_iff] at hc
    exact ⟨⟨fun _ => hc, fun _ => rfl⟩, fun hne => absurd rfl hne⟩
  · rw [if_neg hc]
    constructor
    · constructor
      · intro hok
        cases hok
      · intro hall
        exact absurd (by simpa [List.all_eq_true] using hall) hc
    · intro _
      rfl

/-- C6 witness: local.rs's `init` assigns both late resources `l2` and `e2`
on its single exit path, so it is accepted; an init body that assigns `l2`
only on one branch is rejected with `LateInitIncomplete`. -/
theorem late_init_assigned_on_every_exit_witness :
    checkLate ["l2", "e2"] localInitBody = .ok () ∧
    checkLate ["l2", "e2"] (.branch localInitBody (.ret ["e2"])) =
      .error .LateInitIncomplete :=
  ⟨(late_init_assigned_on_every_exit ["l2", "e2"] localInitBody).1.mpr (by decide),
   (late_init_assigned_on_every_exit _ _).2 (by decide)⟩

theorem mem_pendHwBit (l : List Nat) (v : Nat) : v ∈ pendHwBit l v := by
  unfold pendHwBit
  split
  · assumption
  · exact List.mem_append_right _ (List.mem_singleton.mpr rfl)

theorem pendHwBit_idem (l : List Nat) (v : Nat) :
    pendHwBit (pendHwBit l v) v = pendHwBit l v := by
  simp only [pendHwBit]
  by_cases hv : v ∈ l <;> simp [hv]

/-- C7: `pend` returns success or `QueueFull`; the failure arises exactly
when the target is a software task whose dispatcher queue is at declared
capacity (at capacity implies `QueueFull`, and `QueueFull` implies at
capacity, with below capacity implying success); pending a hardware task
always succeeds, and a second pend of an already-pending hardware vector is
coalesced into the same single pending bit. -/
theorem pend_success_or_queuefull (s : PendState) (t : STask)
    (hwf : ∀ i, t.trigger = .sw i → i < s.queues.length) :
    ((∃ s2, pend s t = .ok s2) ∨ pend s t = .error .QueueFull) ∧
    (pend s t = .error .QueueFull →
      ∃ i q, t.trigger = .sw i ∧ s.queues[i]? = some q ∧ q.cap ≤ q.items.length) ∧
    (∀ i q, t.trigger = .sw i → s.queues[i]? = some q → q.cap ≤ q.items.length →
      pend s t = .error .QueueFull) ∧
    (∀ i q, t.trigger = .sw i → s.queues[i]? = some q → q.items.length < q.cap →
      ∃ s2, pend s t = .ok s2) ∧
    (∀ v, t.trigger = .hw v →
      pend s t = .ok { s with pendingHw := pendHwBit s.pendingHw v } ∧
      pend { s with pendingHw := pendHwBit s.pendingHw v } t =
        .ok { s with pendingHw := pendHwBit s.pendingHw v }) := by
  obtain ⟨tid, trig⟩ := t
  cases trig with
  | hw v =>
      refine ⟨Or.inl ⟨{ s with pendingHw := pendHwBit s.pendingHw v }, rfl⟩, ?_, ?_, ?_, ?_⟩
      · intro h
        simp [pend] at h
      · intro i q hi
        cases hi
      · intro i q hi
        cases hi
      · intro v2 hv2
        cases hv2
        constructor
        · rfl
        · simp [pend, pendHwBit_idem]
  | sw i =>
      have hlen := hwf i rfl
      obtain ⟨q, hq⟩ : ∃ q, s.queues[i]? = some q :=
        ⟨_, List.getElem?_eq_getElem hlen⟩
      by_cases hcap : q.cap ≤ q.items.length
      · refine ⟨Or.inr (by simp [pend, hq, hcap]), ?_, ?_, ?_, ?_⟩
        · intro _
          exact ⟨i, q, rfl, hq, hcap⟩
        · intro i2 q2 hi2 hq2 _
          cases hi2
          rw [hq] at hq2
          cases hq2
          simp [pend, hq, hcap]
        · intro i2 q2 hi2 hq2 hlt
          cases hi2
          rw [hq] at hq2
          cases hq2
          exact absurd hcap (Nat.not_le.mpr hlt)
        · intro v hv
          cases hv
      · have hok : pend s { id := tid, trigger := .sw i } =
            .ok { s with queues :=
              s.queues.set i ({ cap := q.cap, items := q.items ++ [tid] }) } := by
          simp [pend, hq, hcap]
        refine ⟨Or.inl ⟨_, hok⟩, ?_, ?_, ?_, ?_⟩
        · intro h
          rw [hok] at h
          cases h
        · intro i2 q2 hi2 hq2 hfull
          cases hi2
          rw [hq] at hq2
          cases hq2
          exact absurd hfull hcap
        · intro i2 q2 hi2 hq2 hlt
          exact ⟨_, hok⟩
        · intro v hv
          cases hv

/-- C7 witness: pending the hardware task uart0 (vector 5, as local.rs's
init does) from a quiescent NVIC succeeds, a second pend before the first
completes is coalesced into the same single pending bit, and pending a
software task whose dispatcher queue is at its declared capacity fails with
`QueueFull`. -/
theorem pend_success_or_queuefull_witness :
    (pend { pendingHw := [], queues := [] } { id := 0, trigger := .hw 5 } =
        .ok { pendingHw := [5], queues := [] } ∧
      pend { pendingHw := [5], queues := [] } { id := 0, trigger := .hw 5 } =
        .ok { pendingHw := [5], queues := [] }) ∧
    pend { pendingHw := [], queues := [{ cap := 1, items := [9] }] }
        { id := 3, trigger := .sw 0 } = .error .QueueFull := by
  constructor
  · have h :=
      (pend_success_or_queuefull { pendingHw := [], queues := [] }
        { id := 0, trigger := .hw 5 } (fun i hi => Trigger.noConfusion hi)).2.2.2.2 5 rfl
    simpa [pendHwBit] using h
  · exact (pend_success_or_queuefull
        { pendingHw := [], queues := [{ cap := 1, items := [9] }] }
        { id := 3, trigger := .sw 0 }
        (fun i hi => by cases hi; decide)).2.2.1 0 { cap := 1, items := [9] }
      rfl (by decide) (by decide)

/-- C8: `lock` restores BASEPRI to exactly its prior value, runs the thunk
at BASEPRI raised to the ceiling only when the ceiling is higher (i.e. at
the max of the prior BASEPRI and the ceiling), is total (never fails), and
under nesting the outermost lock still restores the outermost prior
BASEPRI. -/
theorem lock_raises_runs_restores {σ : Type} (c : Nat) (f : LockState σ → LockState σ)
    (s : LockState σ) :
    (lock c f s).basepri = s.basepri ∧
    (lock c f s).data =
      (f { basepri := if s.basepri < c then c else s.basepri, data := s.data }).data ∧
    (if s.basepri < c then c else s.basepri) = Nat.max s.basepri c ∧
    (∀ c2 g, (lock c (fun t => lock c2 g t) s).basepri = s.basepri) := by
  refine ⟨rfl, rfl, ?_, fun c2 g => rfl⟩
  rcases Nat.lt_or_ge s.basepri c with h | h
  · have he : Nat.max s.basepri c = c := Nat.max_eq_right (Nat.le_of_lt h)
    rw [if_pos h, he]
  · have he : Nat.max s.basepri c = s.basepri := Nat.max_eq_left h
    rw [if_neg (Nat.not_lt.mpr h), he]

/-- C9: the boot sequence first raises BASEPRI above P, so the pends issued
by `init` are recorded but no task is dispatched during `init`; only after
BASEPRI is lowered to 0 do dispatches and idle run. For t-idle-main.rs
(only an idle task and an empty init) the whole observable trace is: mask,
unmask, then idle runs and terminates via the success exit. -/
theorem boot_masks_init_dispatches_then_idle :
    (∀ app : App, ∃ post,
        (runApp app).2 =
          Event.basepriSet (P + 1) :: app.initPends.map Event.pendEv ++
            Event.basepriSet 0 :: post) ∧
    (runApp tIdleApp).2 = [.basepriSet 8, .basepriSet 0, .exitCode true] := by
  constructor
  · intro app
    exact ⟨_, rfl⟩
  · rfl

/-- C10: a single execution of uart1's body changes only the resource
`shared`, incrementing it by exactly 1 (as u32), leaving l1, e1, l2, e2
unchanged; at the statement level it writes no resource other than
`shared`, and it reads e1 (to print it) but never writes it. -/
theorem uart1_frame_only_shared :
    (∀ s : ResStore, (interp uart1 s).1 = { s with shared := u32add s.shared 1 }) ∧
    (∀ op ∈ uart1, opWrites op ≠ some ResName.e1) ∧
    (∀ op ∈ uart1, ∀ r : ResName, opWrites op = some r → r = ResName.shared) ∧
    (∃ op ∈ uart1, ResName.e1 ∈ opReads op) := by
  refine ⟨fun s => rfl, by decide, by decide, by decide⟩

/-- C10 witness: on the store uart1 actually sees in the local.rs run
(shared = 1, l1 = 1, e1 = 11, l2 = 2, e2 = 2), its body yields shared = 2
and leaves every other resource unchanged. -/
theorem uart1_frame_only_shared_witness :
    (interp uart1 { shared := 1, l1 := 1, e1 := 11, l2 := 2, e2 := 2 }).1 =
      { shared := 2, l1 := 1, e1 := 11, l2 := 2, e2 := 2 } := by
  have h := uart1_frame_only_shared.1 { shared := 1, l1 := 1, e1 := 11, l2 := 2, e2 := 2 }
  simpa [u32add] using h

/-- C3 counterexample: the claim that a task takes a mutable borrow of a
`shared`-mode resource only inside `lock` is false for local.rs: uart0 (and
uart1) mutate `shared` directly from their Context at lock depth 0. -/
theorem shared_only_under_lock_counterexample :
    ¬ (∀ t ∈ localApp.tasks, ∀ r : ResName,
        localMode r = AccessMode.sharedMode → writesOutsideLock t.ops r = false) := by
  intro h
  have h0 := h uart0Task (by decide) ResName.shared rfl
  exact absurd h0 (by decide)

/-- C3 amended: in local.rs every direct (lock-less) mutable access to a
`shared`-mode resource is by a task whose priority equals the resource's
analyzed ceiling (both uart0 and uart1 have priority 1 and `shared` has
ceiling 1), which is why the framework grants the `&mut` without a `lock`
call: no referencing task can preempt another at the same priority. -/
theorem shared_direct_access_at_ceiling_priority (t : HwTask) (ht : t ∈ localApp.tasks)
    (r : ResName) (hm : localMode r = .sharedMode)
    (hw2 : writesOutsideLock t.ops r = true) :
    analyzeResource localRTasks (localRRes r) = .ok (.Shared t.priority) := by
  have hcases : t = uart0Task ∨ t = uart1Task := by
    simpa [localApp] using ht
  cases r <;> try exact absurd hm (by decide)
  rcases hcases with rfl | rfl <;> decide

/-- C3 witness: uart0 writes `shared` outside any lock, and the analyzed
ceiling of `shared` equals uart0's priority (1). -/
theorem shared_direct_access_at_ceiling_priority_witness :
    analyzeResource localRTasks (localRRes .shared) = .ok (.Shared 1) := by
  have h := shared_direct_access_at_ceiling_priority uart0Task (by decide) .shared rfl
    (by decide)
  simpa using h

end RTIC
